import Mathlib

/-!
# Verification of the celo-blockchain mining worker pipeline

A shallow embedding of `miner/worker.go`: the block-production pipeline that
assembles candidate blocks, dispatches them to a consensus engine for sealing
(`taskLoop`), commits sealed results to the chain store (`resultLoop`), and
schedules new work (`newWorkLoop`), together with the pending-snapshot
accessors (`pending`).

Hashes (`common.Hash`) are modelled as `Nat`, with `0` standing for the zero
value `common.Hash{}`.  Go pointer identity, where a claim depends on it
(copy/freshness of receipts, the log objects a receipt's `Logs` slice points
to, interrupt tokens, state snapshots), is modelled by explicit allocation
heaps: a total memory function over `Nat` addresses plus a `next` allocation
counter.  In particular a receipt's `logs` field is a list of pointers into a
log heap, mirroring `Logs []*types.Log`, so that the sharing created by the
shallow receipt copy in `resultLoop` is representable.
-/

set_option autoImplicit false

namespace Miner

/-- `staleThreshold` (worker.go line 51): the maximum depth of the acceptable
stale block. -/
def staleThreshold : Nat := 7

/-- The interrupt reason codes (worker.go lines 65-69), an `int32` iota. -/
def commitInterruptNone : Int := 0

/-- `commitInterruptNewHead` (worker.go line 67). -/
def commitInterruptNewHead : Int := 1

/-- `commitInterruptResubmit` (worker.go line 68). -/
def commitInterruptResubmit : Int := 2

/-- A log object's value (`types.Log`).  Only the fields `resultLoop` touches
are kept (`BlockHash`, `TxHash`); `payload` stands for all the untouched
fields (address, topics, data, index, ...).  Log objects live in a heap and
are reached through pointers, mirroring `*types.Log`. -/
structure Log where
  blockHash : Nat
  txHash : Nat
  payload : Nat
  deriving Repr, DecidableEq

/-- A receipt object's value (`types.Receipt`).  `gasUsed` stands for all the
scalar fields `resultLoop` leaves alone; `blockHash`, `blockNumber` and
`transactionIndex` are the fields it stamps.  `logs` models the
`Logs []*types.Log` slice: a list of pointers into the log heap, so a struct
copy of a receipt shares the pointed-to log objects. -/
structure Receipt where
  gasUsed : Nat
  blockHash : Nat
  blockNumber : Nat
  transactionIndex : Nat
  logs : List Nat
  deriving Repr, DecidableEq

/-- A block (`types.Block`).  `hash` is the final block hash, `number` its
height, `time` the header timestamp (`block.Time()`, seconds), and `sealHash`
the digest `engine.SealHash(block.Header())` of the header excluding the
seal-specific fields; it is carried as a field because two blocks differing
only in their seal share it while having different final hashes. -/
structure Block where
  hash : Nat
  number : Nat
  time : Nat
  sealHash : Nat
  deriving Repr, DecidableEq

/-- An allocation heap: Go's pointer graph for one object type, as a total
memory over `Nat` addresses plus a bump allocator.  Addresses `< next` are the
allocated ones. -/
structure Heap (α : Type) where
  mem : Nat → α
  next : Nat

/-- In-place mutation through a pointer (`*p = v`). -/
def Heap.set {α : Type} (h : Heap α) (p : Nat) (v : α) : Heap α :=
  { h with mem := fun q => if q = p then v else h.mem q }

/-- Allocation (`new(T)` followed by initialisation): returns the new heap and
the fresh address. -/
def Heap.alloc {α : Type} (h : Heap α) (v : α) : Heap α × Nat :=
  ({ mem := fun q => if q = h.next then v else h.mem q, next := h.next + 1 }, h.next)

/-- A sealing task (worker.go lines 57-63).  `receipts` holds pointers into
the receipt heap, mirroring Go's `[]*types.Receipt`; `state` is the opaque
`*state.StateDB` the task owns; `createdAt` is in Unix nanoseconds. -/
structure Task where
  receipts : List Nat
  state : Nat
  block : Block
  createdAt : Int
  deriving Repr, DecidableEq

/-- `clearPending` (worker.go lines 300-309): deletes every pending task whose
block number satisfies `t.block.NumberU64() + staleThreshold <= number`.  The
pending-task map is an association list keyed by seal hash, where lookup finds
the most recently inserted binding. -/
def clearPending (pendingTasks : List (Nat × Task)) (number : Nat) : List (Nat × Task) :=
  pendingTasks.filter fun ht => !decide (ht.2.block.number + staleThreshold ≤ number)

/-! ## Sealing Dispatcher (`taskLoop`, worker.go lines 357-400) -/

/-- The observable actions of one `taskLoop` iteration: closing the previous
seal's stop channel (`interrupt`), and delegating to `engine.Seal`. -/
inductive TEffect where
  | interruptSeal (ch : Nat)
  | sealDelegated (sealHash : Nat)
  deriving Repr, DecidableEq

/-- Whether a dispatcher effect is a delegation to the engine's `Seal`. -/
def TEffect.isSeal : TEffect → Bool
  | .sealDelegated _ => true
  | _ => false

/-- The `taskLoop` goroutine's local state plus the shared pending-task map it
writes.  `stopCh` is the cancellation handle of the in-flight seal (`nil`-able
channel, identified by a `Nat` minted from `nextStop`); `prev` is the seal hash
of the task last accepted (the zero hash `0` initially). -/
structure DispatcherState where
  stopCh : Option Nat
  prev : Nat
  nextStop : Nat
  pendingTasks : List (Nat × Task)
  deriving Repr, DecidableEq

/-- One iteration of `taskLoop` (worker.go lines 372-394) on receiving `t`
from `taskCh`, with the skip-seal hook `skipSeal` (`fun t => false` models a
nil hook).  Follows the source: duplicate check against `prev`, interrupt of
the previous seal, `stopCh, prev` update, skip-seal hook, recording in
`pendingTasks`, delegation to `engine.Seal`.  A synchronous `Seal` error only
logs, so it does not appear in the state. -/
def taskStep (skipSeal : Task → Bool) (s : DispatcherState) (t : Task) :
    DispatcherState × List TEffect :=
  let sealHash := t.block.sealHash
  if sealHash = s.prev then
    (s, [])
  else
    let interruptEffs := match s.stopCh with
      | some ch => [TEffect.interruptSeal ch]
      | none => []
    let s1 : DispatcherState :=
      { s with stopCh := some s.nextStop, nextStop := s.nextStop + 1, prev := sealHash }
    if skipSeal t then
      (s1, interruptEffs)
    else
      ({ s1 with pendingTasks := (sealHash, t) :: s1.pendingTasks },
       interruptEffs ++ [TEffect.sealDelegated sealHash])

/-! ## Result Committer (`resultLoop`, worker.go lines 404-468) -/

/-- Stamping of one log object's value (worker.go lines 442-448): the block
hash is written into the log, and a zero transaction hash (a
block-finalization receipt's log) is rewritten to the block hash. -/
def stampLog (hash : Nat) (l : Log) : Log :=
  { l with blockHash := hash, txHash := if l.txHash = 0 then hash else l.txHash }

/-- Receipt-level stamping (worker.go lines 434-436): the block hash, block
number and transaction index are written in place; the `logs` pointer list is
untouched, so any copy of this value keeps pointing at the same log
objects. -/
def stampReceipt (hash number idx : Nat) (r : Receipt) : Receipt :=
  { r with blockHash := hash, blockNumber := number, transactionIndex := idx }

/-- The inner log loop of `resultLoop` (worker.go lines 442-448): every log
object pointed to from the receipt's `Logs` slice is stamped in place through
its pointer. -/
def stampLogs (lh : Heap Log) (hash : Nat) : List Nat → Heap Log
  | [] => lh
  | l :: ls => stampLogs (lh.set l (stampLog hash (lh.mem l))) hash ls

/-- The receipt-processing loop of `resultLoop` (worker.go lines 428-450),
starting at transaction index `i`: for each receipt pointer `p` of the task,
the pointed-to receipt is stamped in place; a freshly allocated shallow copy
of the struct (`receipts[i] = new(types.Receipt); *receipts[i] = *receipt`,
which shares the `Logs` pointer slice with the task's receipt) is collected
for the chain-store write; and the shared log objects are then stamped in
place.  Returns the final receipt heap, the final log heap, and the receipt
pointers handed to the write. -/
def commitReceipts : Heap Receipt → Heap Log → Nat → Nat → Nat → List Nat →
    Heap Receipt × Heap Log × List Nat
  | rheap, lheap, _, _, _, [] => (rheap, lheap, [])
  | rheap, lheap, hash, number, i, p :: ps =>
    let r := stampReceipt hash number i (rheap.mem p)
    let a := (rheap.set p r).alloc r
    let lheap1 := stampLogs lheap hash r.logs
    let rest := commitReceipts a.1 lheap1 hash number (i + 1) ps
    (rest.1, rest.2.1, a.2 :: rest.2.2)

/-- The chain store, as `resultLoop` sees it: the set of (hash, number) pairs
`HasBlock` answers for, extended by `WriteBlockWithState`. -/
structure ChainStore where
  blocks : List (Nat × Nat)
  deriving Repr, DecidableEq

/-- `chain.HasBlock(hash, number)`. -/
def ChainStore.hasBlock (c : ChainStore) (hash number : Nat) : Bool :=
  c.blocks.contains (hash, number)

/-- The observable actions of one `resultLoop` iteration: the error log, the
`WriteBlockWithState` call (with the receipt pointers handed to it), the
finalization-time gauge update, and the `NewMinedBlockEvent` broadcast. -/
inductive REffect where
  | logError
  | writeAttempt (hash number : Nat) (receipts : List Nat)
  | metricUpdate (v : Int)
  | newMinedBroadcast (hash : Nat)
  deriving Repr, DecidableEq

/-- Whether a committer effect is a call to `chain.WriteBlockWithState`. -/
def REffect.isWrite : REffect → Bool
  | .writeAttempt _ _ _ => true
  | _ => false

/-- Whether a committer effect is an update of the finalization-time gauge. -/
def REffect.isMetric : REffect → Bool
  | .metricUpdate _ => true
  | _ => false

/-- Whether a committer effect is a `NewMinedBlockEvent` broadcast. -/
def REffect.isBroadcast : REffect → Bool
  | .newMinedBroadcast _ => true
  | _ => false

/-- The state `resultLoop` reads and writes: the shared pending-task map, the
chain store, the receipt heap and the log heap. -/
structure CommitterState where
  pendingTasks : List (Nat × Task)
  chain : ChainStore
  heap : Heap Receipt
  logHeap : Heap Log

/-- One iteration of `resultLoop` (worker.go lines 407-462) on receiving
`result` from `resultCh`.  `writeOk` is whether `chain.WriteBlockWithState`
succeeds; `now` is `time.Now().UnixNano()`.  Follows the source: nil check,
duplicate check against the chain store, pending-task lookup by seal hash
(absent: error log and drop), receipt stamping and copying, chain write
(failure: error log and continue), gauge update with
`now - int64(block.Time())*1000000000`, and block broadcast. -/
def resultStep (writeOk : Bool) (now : Int) (s : CommitterState) (result : Option Block) :
    CommitterState × List REffect :=
  match result with
  | none => (s, [])
  | some block =>
    if s.chain.hasBlock block.hash block.number then
      (s, [])
    else
      match s.pendingTasks.lookup block.sealHash with
      | none => (s, [REffect.logError])
      | some task =>
        let cr := commitReceipts s.heap s.logHeap block.hash block.number 0 task.receipts
        if writeOk then
          ({ s with heap := cr.1, logHeap := cr.2.1,
                    chain := { blocks := (block.hash, block.number) :: s.chain.blocks } },
           [REffect.writeAttempt block.hash block.number cr.2.2,
            REffect.metricUpdate (now - (block.time : Int) * 1000000000),
            REffect.newMinedBroadcast block.hash])
        else
          ({ s with heap := cr.1, logHeap := cr.2.1 },
           [REffect.writeAttempt block.hash block.number cr.2.2, REffect.logError])

/-! ## Work Scheduler (`newWorkLoop`, worker.go lines 281-328) -/

/-- The two external signals `newWorkLoop` reacts to (besides shutdown): a
start request and a new chain head, each carrying the chain height observed
when it is handled (`w.chain.CurrentBlock().NumberU64()` respectively
`head.Block.NumberU64()`). -/
inductive Signal where
  | start (curNumber : Nat)
  | chainHead (headNumber : Nat)
  deriving Repr, DecidableEq

/-- The chain height a signal is handled at. -/
def Signal.number : Signal → Nat
  | .start n => n
  | .chainHead n => n

/-- A `newWorkReq` (worker.go lines 72-76): the build request sent on
`newWorkCh`, carrying the freshly minted interrupt token (a pointer to an
`int32` cell), the `noempty` flag, and the round timestamp. -/
structure NewWorkReq where
  interrupt : Nat
  noempty : Bool
  timestamp : Int
  deriving Repr, DecidableEq

/-- The `newWorkLoop` goroutine's state: the current interrupt-token pointer
(`nil` before the first request), the heap of `int32` token cells, the round
timestamp, and the shared pending-task map it evicts. -/
structure SchedulerState where
  interrupt : Option Nat
  tokenHeap : Heap Int
  timestamp : Int
  pendingTasks : List (Nat × Task)

/-- One iteration of `newWorkLoop` (worker.go lines 311-327) on one signal,
with `now` the wall clock (`time.Now().Unix()`).  Follows the source: both the
start and chain-head cases run `clearPending` at the observed height, set
`timestamp`, and call `commit(false, commitInterruptNewHead)` — which stores
the reason code through the previous token pointer if it is non-nil, allocates
a fresh zero `int32` token, and sends exactly one `newWorkReq` carrying it. -/
def schedStep (now : Int) (s : SchedulerState) (sig : Signal) :
    SchedulerState × List NewWorkReq :=
  let pending1 := clearPending s.pendingTasks sig.number
  let heap1 := match s.interrupt with
    | some p => s.tokenHeap.set p commitInterruptNewHead
    | none => s.tokenHeap
  let a := heap1.alloc commitInterruptNone
  ({ interrupt := some a.2, tokenHeap := a.1, timestamp := now,
     pendingTasks := pending1 },
   [{ interrupt := a.2, noempty := false, timestamp := now }])

/-- A run of `newWorkLoop` over a list of signals, collecting every build
request it emits. -/
def schedRun (now : Int) (s : SchedulerState) : List Signal → SchedulerState × List NewWorkReq
  | [] => (s, [])
  | sig :: sigs =>
    let step := schedStep now s sig
    let rest := schedRun now step.1 sigs
    (rest.1, step.2 ++ rest.2)

/-! ## Pending Snapshot accessors (`pending`, worker.go lines 221-238) -/

/-- The snapshot fields of the worker plus the heap of `state.StateDB`
objects.  A `StateDB`'s contents are opaque here, modelled as a `Nat`;
`snapshotState` points into the heap (`nil`-able). -/
structure SnapshotState where
  snapshotBlock : Option Block
  snapshotState : Option Nat
  stateHeap : Heap Nat

/-- Modelled from the spec: `(*state.StateDB).Copy` lives in `core/state`,
which is not part of the sources under study; the spec describes the snapshot
read as handing every caller "its own independent copy of `state`".  A copy is
therefore a fresh allocation holding the same contents. -/
def stateCopy (h : Heap Nat) (p : Nat) : Heap Nat × Nat :=
  h.alloc (h.mem p)

/-- `pending()` (worker.go lines 222-230): returns `nil, nil` when there is no
snapshot state, and otherwise the snapshot block together with
`snapshotState.Copy()`.  The allocation made by the copy is threaded through
the returned heap state. -/
def pending (s : SnapshotState) : SnapshotState × Option Block × Option Nat :=
  match s.snapshotState with
  | none => (s, none, none)
  | some p =>
    let c := stateCopy s.stateHeap p
    ({ s with stateHeap := c.1 }, s.snapshotBlock, some c.2)

/-! ## Concrete example values

Fixed inputs on which the theorems below are evaluated. -/

/-- A sample log whose transaction hash is the zero value (a
block-finalization log); it lives at log-heap address 0. -/
def logZero : Log := ⟨0, 0, 11⟩

/-- A sample log with a nonzero transaction hash, at log-heap address 1. -/
def logTx : Log := ⟨0, 5, 12⟩

/-- A second ordinary sample log, at log-heap address 2. -/
def logB : Log := ⟨0, 7, 13⟩

/-- A log heap holding `logZero`, `logTx` and `logB` at addresses 0, 1, 2. -/
def exampleLogHeap : Heap Log :=
  { mem := fun q => if q = 0 then logZero else if q = 1 then logTx else logB,
    next := 3 }

/-- A sample receipt pointing at the finalization log 0 and the ordinary
log 1. -/
def receiptA : Receipt := ⟨21000, 0, 0, 0, [0, 1]⟩

/-- A second sample receipt pointing at log 2. -/
def receiptB : Receipt := ⟨40000, 0, 0, 0, [2]⟩

/-- A receipt heap holding `receiptA` at address 0 and `receiptB` at 1. -/
def exampleHeap : Heap Receipt :=
  { mem := fun q => if q = 0 then receiptA else if q = 1 then receiptB else ⟨0, 0, 0, 0, []⟩,
    next := 2 }

/-- A sample sealed block: final hash 9, height 1, header timestamp 2
seconds, seal hash 5. -/
def exampleBlock : Block := ⟨9, 1, 2, 5⟩

/-- A sample pending task owning the two heap receipts, created at Unix
nanosecond 1. -/
def exampleTask : Task := ⟨[0, 1], 0, exampleBlock, 1⟩

/-- A committer state in which `exampleTask` is pending under seal hash 5 and
the chain store is empty. -/
def exampleCommitter : CommitterState :=
  { pendingTasks := [(5, exampleTask)], chain := ⟨[]⟩, heap := exampleHeap,
    logHeap := exampleLogHeap }

/-- A committer state with no pending tasks and an empty chain store. -/
def emptyCommitter : CommitterState :=
  { pendingTasks := [], chain := ⟨[]⟩, heap := exampleHeap,
    logHeap := exampleLogHeap }

/-- A committer state whose chain store already holds block (hash 9,
height 1). -/
def dupCommitter : CommitterState :=
  { pendingTasks := [], chain := ⟨[(9, 1)]⟩, heap := exampleHeap,
    logHeap := exampleLogHeap }

/-- A snapshot state whose stored `StateDB`, at address 0, has contents 42. -/
def exampleSnapshot : SnapshotState :=
  { snapshotBlock := some exampleBlock, snapshotState := some 0,
    stateHeap := { mem := fun q => if q = 0 then 42 else 0, next := 1 } }

/-- A scheduler state holding an outstanding interrupt token at address 0 and
the sample task (at height 1) pending. -/
def exampleScheduler : SchedulerState :=
  { interrupt := some 0, tokenHeap := { mem := fun _ => 0, next := 1 },
    timestamp := 0, pendingTasks := [(5, exampleTask)] }

/-! ## Heap lemmas -/

theorem Heap.set_next {α : Type} (h : Heap α) (p : Nat) (v : α) :
    (h.set p v).next = h.next := rfl

theorem Heap.alloc_next {α : Type} (h : Heap α) (v : α) :
    (h.alloc v).1.next = h.next + 1 := rfl

theorem Heap.alloc_ptr {α : Type} (h : Heap α) (v : α) :
    (h.alloc v).2 = h.next := rfl

theorem Heap.set_mem_self {α : Type} (h : Heap α) (p : Nat) (v : α) :
    (h.set p v).mem p = v := by
  simp [Heap.set]

theorem Heap.set_mem_ne {α : Type} (h : Heap α) {p q : Nat} (v : α) (hq : q ≠ p) :
    (h.set p v).mem q = h.mem q := by
  simp [Heap.set, hq]

theorem Heap.alloc_mem_self {α : Type} (h : Heap α) (v : α) :
    (h.alloc v).1.mem h.next = v := by
  simp [Heap.alloc]

theorem Heap.alloc_mem_ne {α : Type} (h : Heap α) (v : α) {q : Nat} (hq : q ≠ h.next) :
    (h.alloc v).1.mem q = h.mem q := by
  simp [Heap.alloc, hq]

/-! ## C3: staleness eviction -/

/-- C3: after `clearPending` runs at observed height `n`, no task with
`h + staleThreshold ≤ n` remains, every task with `n < h + staleThreshold`
that was present is still present, and in particular a task at height `h` is
removed at observed height `h + 7` and still present at `h + 6`. -/
theorem clearPending_staleness (pendingTasks : List (Nat × Task)) (n : Nat) :
    (∀ e ∈ clearPending pendingTasks n, n < e.2.block.number + staleThreshold) ∧
    (∀ e ∈ pendingTasks, n < e.2.block.number + staleThreshold →
      e ∈ clearPending pendingTasks n) ∧
    (∀ e ∈ pendingTasks, e ∉ clearPending pendingTasks (e.2.block.number + 7)) ∧
    (∀ e ∈ pendingTasks, e ∈ clearPending pendingTasks (e.2.block.number + 6)) := by
  refine ⟨?_, ?_, ?_, ?_⟩ <;> intro e he <;>
    simp only [clearPending, staleThreshold, List.mem_filter, Bool.not_eq_true',
      decide_eq_false_iff_not, not_le, not_and] at *
  · exact he.2
  · intro hlt
    exact ⟨he, hlt⟩
  · intro hmem
    omega
  · exact ⟨he, by omega⟩

/-- Concrete instance of C3: a task at height 3 is evicted at observed height
10 and still present at observed height 9. -/
theorem clearPending_staleness_witness :
    (1, ⟨[], 0, ⟨0, 3, 0, 0⟩, 0⟩) ∉
        clearPending [(1, (⟨[], 0, ⟨0, 3, 0, 0⟩, 0⟩ : Task))] 10 ∧
    (1, ⟨[], 0, ⟨0, 3, 0, 0⟩, 0⟩) ∈
        clearPending [(1, (⟨[], 0, ⟨0, 3, 0, 0⟩, 0⟩ : Task))] 9 :=
  ⟨(clearPending_staleness [(1, ⟨[], 0, ⟨0, 3, 0, 0⟩, 0⟩)] 10).2.2.1
      (1, ⟨[], 0, ⟨0, 3, 0, 0⟩, 0⟩) (by decide),
   (clearPending_staleness [(1, ⟨[], 0, ⟨0, 3, 0, 0⟩, 0⟩)] 9).2.1
      (1, ⟨[], 0, ⟨0, 3, 0, 0⟩, 0⟩) (by decide) (by decide)⟩

/-! ## C5: nil and duplicate results are skipped entirely -/

/-- C5: the committer skips a nil result, and skips a sealed block whose
exact hash and number the chain store already contains: unchanged state, no
write, no error, and the loop continues. -/
theorem resultStep_skips_nil_and_duplicate (writeOk : Bool) (now : Int)
    (s : CommitterState) (b : Block)
    (hdup : s.chain.hasBlock b.hash b.number = true) :
    resultStep writeOk now s none = (s, []) ∧
    resultStep writeOk now s (some b) = (s, []) := by
  refine ⟨rfl, ?_⟩
  simp [resultStep, hdup]

/-- Concrete instance of C5: a chain store already holding (hash 9, height 1)
ignores both a nil result and a sealed block with that hash and height. -/
theorem resultStep_skips_nil_and_duplicate_witness :
    resultStep true 0 dupCommitter none = (dupCommitter, []) ∧
    resultStep true 0 dupCommitter (some exampleBlock) = (dupCommitter, []) :=
  resultStep_skips_nil_and_duplicate true 0 dupCommitter exampleBlock (by decide)

/-! ## C4: results with no matching pending task are dropped with an error -/

/-- C4: a sealed block that is not yet in the chain store but whose seal
identity has no entry in the pending-task store produces exactly an error log:
the state (pending-task store, chain store, receipt heap) is returned
unchanged, with no write, no metric update and no broadcast. -/
theorem resultStep_unknown_task (writeOk : Bool) (now : Int) (s : CommitterState) (b : Block)
    (hnew : s.chain.hasBlock b.hash b.number = false)
    (hmiss : s.pendingTasks.lookup b.sealHash = none) :
    resultStep writeOk now s (some b) = (s, [REffect.logError]) := by
  simp [resultStep, hnew, hmiss]

/-- Concrete instance of C4: an empty pending-task store drops the sealed
block with only an error log. -/
theorem resultStep_unknown_task_witness :
    resultStep true 0 emptyCommitter (some exampleBlock) =
      (emptyCommitter, [REffect.logError]) :=
  resultStep_unknown_task true 0 emptyCommitter exampleBlock (by decide) (by decide)

/-! ## C7: chain-write failure is logged, not retried, nothing broadcast -/

/-- C7: when the chain-store write fails, the committer leaves the chain
store and the pending-task store unchanged, attempts the write exactly once
(no retry), performs no metric update, broadcasts nothing, and logs an
error. -/
theorem resultStep_write_failure (now : Int) (s : CommitterState) (b : Block) (task : Task)
    (hnew : s.chain.hasBlock b.hash b.number = false)
    (hfound : s.pendingTasks.lookup b.sealHash = some task) :
    (resultStep false now s (some b)).1.chain = s.chain ∧
    (resultStep false now s (some b)).1.pendingTasks = s.pendingTasks ∧
    ((resultStep false now s (some b)).2.filter REffect.isWrite).length = 1 ∧
    ((resultStep false now s (some b)).2.filter REffect.isMetric).length = 0 ∧
    ((resultStep false now s (some b)).2.filter REffect.isBroadcast).length = 0 ∧
    REffect.logError ∈ (resultStep false now s (some b)).2 := by
  simp [resultStep, hnew, hfound, REffect.isWrite, REffect.isMetric, REffect.isBroadcast]

/-- Concrete instance of C7: a failing write of the sample block leaves the
stores unchanged, attempts one write, updates no metric, broadcasts nothing
and logs an error. -/
theorem resultStep_write_failure_witness :
    (resultStep false 0 exampleCommitter (some exampleBlock)).1.chain =
        exampleCommitter.chain ∧
    (resultStep false 0 exampleCommitter (some exampleBlock)).1.pendingTasks =
        exampleCommitter.pendingTasks ∧
    ((resultStep false 0 exampleCommitter (some exampleBlock)).2.filter
        REffect.isWrite).length = 1 ∧
    ((resultStep false 0 exampleCommitter (some exampleBlock)).2.filter
        REffect.isMetric).length = 0 ∧
    ((resultStep false 0 exampleCommitter (some exampleBlock)).2.filter
        REffect.isBroadcast).length = 0 ∧
    REffect.logError ∈ (resultStep false 0 exampleCommitter (some exampleBlock)).2 :=
  resultStep_write_failure 0 exampleCommitter exampleBlock exampleTask
    (by decide) (by decide)

/-! ## C8: successful commit updates the gauge and broadcasts the block -/

/-- C8 counterexample: on a successful commit at `now = 3000000000` ns of a
block whose header timestamp is 2 s, resolved against a task created at
nanosecond 1, the broadcast fires and the gauge is updated with
`now - blockTime = 1000000000` — not with the elapsed time from the task's
creation, `now - createdAt = 2999999999`, as the claim states. -/
theorem resultStep_metric_counterexample :
    REffect.newMinedBroadcast 9 ∈
        (resultStep true 3000000000 exampleCommitter (some exampleBlock)).2 ∧
    REffect.metricUpdate 1000000000 ∈
        (resultStep true 3000000000 exampleCommitter (some exampleBlock)).2 ∧
    REffect.metricUpdate (3000000000 - exampleTask.createdAt) ∉
        (resultStep true 3000000000 exampleCommitter (some exampleBlock)).2 := by
  decide

/-- C8 (amended): on every successful commit the committer updates the
finalization-time gauge with `now - block.time * 1000000000` — the elapsed
time from the block's header timestamp to the chain write — and broadcasts a
new-block-mined notification carrying the committed block, after exactly one
chain-store write that prepends the block to the chain store. -/
theorem resultStep_success_metric_broadcast (now : Int) (s : CommitterState) (b : Block)
    (task : Task)
    (hnew : s.chain.hasBlock b.hash b.number = false)
    (hfound : s.pendingTasks.lookup b.sealHash = some task) :
    (resultStep true now s (some b)).2 =
      [REffect.writeAttempt b.hash b.number
         (commitReceipts s.heap s.logHeap b.hash b.number 0 task.receipts).2.2,
       REffect.metricUpdate (now - (b.time : Int) * 1000000000),
       REffect.newMinedBroadcast b.hash] ∧
    (resultStep true now s (some b)).1.chain.blocks =
      (b.hash, b.number) :: s.chain.blocks := by
  simp [resultStep, hnew, hfound]

/-- Concrete instance of the amended C8: committing the sample block at
`now = 3000000000` ns emits the write, the gauge update with
`3000000000 - 2 * 1000000000`, and the broadcast, in that order. -/
theorem resultStep_success_metric_broadcast_witness :
    (resultStep true 3000000000 exampleCommitter (some exampleBlock)).2 =
      [REffect.writeAttempt 9 1
         (commitReceipts exampleCommitter.heap exampleCommitter.logHeap 9 1 0
           exampleTask.receipts).2.2,
       REffect.metricUpdate (3000000000 - (2 : Int) * 1000000000),
       REffect.newMinedBroadcast 9] ∧
    (resultStep true 3000000000 exampleCommitter (some exampleBlock)).1.chain.blocks =
      (9, 1) :: exampleCommitter.chain.blocks :=
  resultStep_success_metric_broadcast 3000000000 exampleCommitter exampleBlock exampleTask
    (by decide) (by decide)

/-! ## C2: consecutive tasks with the same seal identity seal once -/

/-- A task whose seal identity equals the dispatcher's `prev` is discarded
silently, whatever the skip hook: state unchanged, no effects. -/
theorem taskStep_duplicate (skipSeal : Task → Bool) (s : DispatcherState) (t : Task)
    (h : t.block.sealHash = s.prev) :
    taskStep skipSeal s t = (s, []) := by
  simp [taskStep, h]

/-- C2: for two consecutively received sealing tasks whose blocks share the
same seal identity (the first fresh and not vetoed), the engine's `Seal` is
delegated exactly once by the first, and the second is discarded silently:
state unchanged, no effects at all. -/
theorem taskStep_dedup (skipSeal : Task → Bool) (s : DispatcherState) (t1 t2 : Task)
    (hnew : t1.block.sealHash ≠ s.prev)
    (hskip : skipSeal t1 = false)
    (hsame : t2.block.sealHash = t1.block.sealHash) :
    ((taskStep skipSeal s t1).2.filter TEffect.isSeal).length = 1 ∧
    taskStep skipSeal (taskStep skipSeal s t1).1 t2 = ((taskStep skipSeal s t1).1, []) := by
  have hprev : (taskStep skipSeal s t1).1.prev = t1.block.sealHash := by
    simp [taskStep, hnew, hskip]
  constructor
  · cases hch : s.stopCh <;>
      simp [taskStep, hnew, hskip, hch, TEffect.isSeal]
  · exact taskStep_duplicate skipSeal _ t2 (by rw [hsame]; exact hprev.symm)

/-- Concrete instance of C2: from a fresh dispatcher, submitting the sample
task twice with a nil skip hook delegates exactly one seal and silently drops
the duplicate. -/
theorem taskStep_dedup_witness :
    ((taskStep (fun _ => false) ⟨none, 0, 0, []⟩ exampleTask).2.filter
        TEffect.isSeal).length = 1 ∧
    taskStep (fun _ => false) (taskStep (fun _ => false) ⟨none, 0, 0, []⟩ exampleTask).1
        exampleTask =
      ((taskStep (fun _ => false) ⟨none, 0, 0, []⟩ exampleTask).1, []) :=
  taskStep_dedup (fun _ => false) ⟨none, 0, 0, []⟩ exampleTask exampleTask
    (by decide) (by rfl) (by rfl)

/-! ## C10: a vetoed task still arms the duplicate filter -/

/-- C10: when the skip-seal hook vetoes a fresh task, the dispatcher has
already cancelled the in-flight seal and recorded the task's seal identity as
the deduplication key: the only effect is the interrupt, the task is not
recorded in the pending-task store, no seal is delegated, the dispatcher's
`prev` now holds the vetoed identity — and a subsequent task with the same
seal identity is discarded as a duplicate regardless of the hook then in
force. -/
theorem taskStep_veto_arms_dedup (skipSeal skipSeal2 : Task → Bool)
    (s : DispatcherState) (t1 t2 : Task) (ch : Nat)
    (hnew : t1.block.sealHash ≠ s.prev)
    (hstop : s.stopCh = some ch)
    (hveto : skipSeal t1 = true)
    (hsame : t2.block.sealHash = t1.block.sealHash) :
    (taskStep skipSeal s t1).2 = [TEffect.interruptSeal ch] ∧
    (taskStep skipSeal s t1).1.pendingTasks = s.pendingTasks ∧
    (taskStep skipSeal s t1).1.prev = t1.block.sealHash ∧
    taskStep skipSeal2 (taskStep skipSeal s t1).1 t2 =
      ((taskStep skipSeal s t1).1, []) := by
  have hprev : (taskStep skipSeal s t1).1.prev = t1.block.sealHash := by
    simp [taskStep, hnew, hveto]
  refine ⟨?_, ?_, hprev, ?_⟩
  · simp [taskStep, hnew, hveto, hstop]
  · simp [taskStep, hnew, hveto]
  · exact taskStep_duplicate skipSeal2 _ t2 (by rw [hsame]; exact hprev.symm)

/-- Concrete instance of C10: with a seal in flight on channel 7, a vetoed
sample task cancels it, records nothing, arms `prev` with seal hash 5, and
the resubmitted task is then dropped even under a non-vetoing hook. -/
theorem taskStep_veto_arms_dedup_witness :
    (taskStep (fun _ => true) ⟨some 7, 0, 1, []⟩ exampleTask).2 =
      [TEffect.interruptSeal 7] ∧
    (taskStep (fun _ => true) ⟨some 7, 0, 1, []⟩ exampleTask).1.pendingTasks = [] ∧
    (taskStep (fun _ => true) ⟨some 7, 0, 1, []⟩ exampleTask).1.prev =
      exampleTask.block.sealHash ∧
    taskStep (fun _ => false)
        (taskStep (fun _ => true) ⟨some 7, 0, 1, []⟩ exampleTask).1 exampleTask =
      ((taskStep (fun _ => true) ⟨some 7, 0, 1, []⟩ exampleTask).1, []) :=
  taskStep_veto_arms_dedup (fun _ => true) (fun _ => false) ⟨some 7, 0, 1, []⟩
    exampleTask exampleTask 7 (by decide) (by rfl) (by rfl) (by rfl)

/-! ## C9: the snapshot read hands out an independent state copy -/

/-- C9: when a snapshot state is present at address `p`, `pending` returns
the snapshot block together with a state object `q` distinct from the stored
one, holding the same contents; the stored snapshot still points to `p`, the
stored contents are untouched, mutating the returned object never changes the
stored contents, and a second call returns an object distinct from the
first's. -/
theorem pending_independent_copy (s : SnapshotState) (p : Nat)
    (hsnap : s.snapshotState = some p)
    (hwf : p < s.stateHeap.next) :
    (pending s).2.1 = s.snapshotBlock ∧
    (∃ q, (pending s).2.2 = some q ∧
      q ≠ p ∧
      (pending s).1.stateHeap.mem q = s.stateHeap.mem p ∧
      (pending s).1.snapshotState = some p ∧
      (pending s).1.stateHeap.mem p = s.stateHeap.mem p ∧
      (∀ v, ((pending s).1.stateHeap.set q v).mem p = s.stateHeap.mem p)) ∧
    (∀ q1 q2, (pending s).2.2 = some q1 →
      (pending (pending s).1).2.2 = some q2 → q1 ≠ q2) := by
  have hne : p ≠ s.stateHeap.next := Nat.ne_of_lt hwf
  refine ⟨?_, ⟨s.stateHeap.next, ?_, fun h => hne h.symm, ?_, ?_, ?_, ?_⟩, ?_⟩
  · simp [pending, hsnap]
  · simp [pending, stateCopy, hsnap, Heap.alloc_ptr]
  · simp [pending, stateCopy, hsnap, Heap.alloc_mem_self]
  · simp [pending, hsnap]
  · simp [pending, stateCopy, hsnap, Heap.alloc_mem_ne _ _ hne]
  · intro v
    rw [Heap.set_mem_ne _ _ hne]
    simp [pending, stateCopy, hsnap, Heap.alloc_mem_ne _ _ hne]
  · intro q1 q2 h1 h2
    simp only [pending, stateCopy, hsnap, Heap.alloc_ptr, Heap.alloc_next,
      Option.some.injEq] at h1 h2
    omega

/-- Concrete instance of C9: reading the sample snapshot yields a fresh state
object with contents 42, distinct from the stored address 0, and a second
read yields yet another object. -/
theorem pending_independent_copy_witness :
    (pending exampleSnapshot).2.1 = exampleSnapshot.snapshotBlock ∧
    (∃ q, (pending exampleSnapshot).2.2 = some q ∧
      q ≠ 0 ∧
      (pending exampleSnapshot).1.stateHeap.mem q = exampleSnapshot.stateHeap.mem 0 ∧
      (pending exampleSnapshot).1.snapshotState = some 0 ∧
      (pending exampleSnapshot).1.stateHeap.mem 0 = exampleSnapshot.stateHeap.mem 0 ∧
      (∀ v, ((pending exampleSnapshot).1.stateHeap.set q v).mem 0 =
        exampleSnapshot.stateHeap.mem 0)) ∧
    (∀ q1 q2, (pending exampleSnapshot).2.2 = some q1 →
      (pending (pending exampleSnapshot).1).2.2 = some q2 → q1 ≠ q2) :=
  pending_independent_copy exampleSnapshot 0 (by rfl) (by decide)

/-! ## C6: scheduler token discipline -/

/-- Every scheduler step allocates exactly one token: the counter advances by
one. -/
theorem schedStep_next (now : Int) (s : SchedulerState) (sig : Signal) :
    (schedStep now s sig).1.tokenHeap.next = s.tokenHeap.next + 1 := by
  cases h : s.interrupt <;>
    simp [schedStep, h, Heap.alloc_next, Heap.set_next]

/-- The tokens carried by the build requests of a scheduler run are the
consecutive addresses starting at the initial allocation counter. -/
theorem schedRun_tokens (now : Int) (s : SchedulerState) (sigs : List Signal) :
    (schedRun now s sigs).2.map NewWorkReq.interrupt =
      List.range' s.tokenHeap.next sigs.length := by
  induction sigs generalizing s with
  | nil => rfl
  | cons sig sigs ih =>
    have hstep2 : (schedStep now s sig).2 = [⟨s.tokenHeap.next, false, now⟩] := by
      cases h : s.interrupt <;>
        simp [schedStep, h, Heap.alloc_ptr, Heap.set_next]
    simp only [schedRun, List.map_append, hstep2, ih, schedStep_next, List.length_cons,
      List.range'_succ, List.map_cons, List.map_nil, List.singleton_append]

/-- C6: on every signal the scheduler evicts stale pending tasks exactly as
`clearPending` at the observed height, emits exactly one build request, whose
fresh token cell reads `commitInterruptNone` and is recorded as the current
token, carrying the trigger timestamp; the previous token (if any) is left
holding the supersession reason `commitInterruptNewHead` and differs from the
fresh one; and over any run of signals no two build requests share a token. -/
theorem schedStep_fresh_token (now : Int) (s : SchedulerState) (sig : Signal) :
    (schedStep now s sig).1.pendingTasks = clearPending s.pendingTasks sig.number ∧
    (schedStep now s sig).2.length = 1 ∧
    (∃ req, (schedStep now s sig).2 = [req] ∧
      (schedStep now s sig).1.interrupt = some req.interrupt ∧
      (schedStep now s sig).1.tokenHeap.mem req.interrupt = commitInterruptNone ∧
      req.timestamp = now ∧
      (∀ p, s.interrupt = some p → p < s.tokenHeap.next →
        (schedStep now s sig).1.tokenHeap.mem p = commitInterruptNewHead ∧
        req.interrupt ≠ p)) ∧
    (∀ sigs, ((schedRun now s sigs).2.map NewWorkReq.interrupt).Nodup) := by
  refine ⟨?_, ?_, ⟨⟨s.tokenHeap.next, false, now⟩, ?_, ?_, ?_, rfl, ?_⟩, ?_⟩
  · cases h : s.interrupt <;> simp [schedStep, h]
  · cases h : s.interrupt <;> simp [schedStep, h]
  · cases h : s.interrupt <;>
      simp [schedStep, h, Heap.alloc_ptr, Heap.set_next]
  · cases h : s.interrupt <;>
      simp [schedStep, h, Heap.alloc_ptr, Heap.set_next]
  · cases h : s.interrupt <;>
      simp [schedStep, h, Heap.alloc, Heap.set]
  · intro p hp hlt
    have hne : p ≠ s.tokenHeap.next := Nat.ne_of_lt hlt
    constructor
    · simp [schedStep, hp, Heap.alloc, Heap.set, hne]
    · exact fun h => hne h.symm
  · intro sigs
    rw [schedRun_tokens]
    exact List.nodup_range' _ _

/-- Concrete instance of C6: handling a chain-head signal at height 9 evicts
the height-1 pending task, supersedes token 0 with the new-head reason code,
and issues one build request carrying the fresh token. -/
theorem schedStep_fresh_token_witness :
    (schedStep 77 exampleScheduler (Signal.chainHead 9)).1.pendingTasks =
      clearPending exampleScheduler.pendingTasks (Signal.chainHead 9).number ∧
    (schedStep 77 exampleScheduler (Signal.chainHead 9)).2.length = 1 ∧
    (∃ req, (schedStep 77 exampleScheduler (Signal.chainHead 9)).2 = [req] ∧
      (schedStep 77 exampleScheduler (Signal.chainHead 9)).1.interrupt =
        some req.interrupt ∧
      (schedStep 77 exampleScheduler (Signal.chainHead 9)).1.tokenHeap.mem
        req.interrupt = commitInterruptNone ∧
      req.timestamp = 77 ∧
      (∀ p, exampleScheduler.interrupt = some p →
        p < exampleScheduler.tokenHeap.next →
        (schedStep 77 exampleScheduler (Signal.chainHead 9)).1.tokenHeap.mem p =
          commitInterruptNewHead ∧
        req.interrupt ≠ p)) ∧
    (∀ sigs, ((schedRun 77 exampleScheduler sigs).2.map NewWorkReq.interrupt).Nodup) :=
  schedStep_fresh_token 77 exampleScheduler (Signal.chainHead 9)

/-! ## Receipt-processing lemmas for `commitReceipts` -/

/-- Unfolding of the receipt loop on a nonempty list: final receipt heap. -/
theorem commitReceipts_cons_fst (rh : Heap Receipt) (lh : Heap Log)
    (hash number i p : Nat) (ps : List Nat) :
    (commitReceipts rh lh hash number i (p :: ps)).1 =
      (commitReceipts ((rh.set p (stampReceipt hash number i (rh.mem p))).alloc
          (stampReceipt hash number i (rh.mem p))).1
        (stampLogs lh hash (rh.mem p).logs) hash number (i + 1) ps).1 := rfl

/-- Unfolding of the receipt loop on a nonempty list: final log heap. -/
theorem commitReceipts_cons_log (rh : Heap Receipt) (lh : Heap Log)
    (hash number i p : Nat) (ps : List Nat) :
    (commitReceipts rh lh hash number i (p :: ps)).2.1 =
      (commitReceipts ((rh.set p (stampReceipt hash number i (rh.mem p))).alloc
          (stampReceipt hash number i (rh.mem p))).1
        (stampLogs lh hash (rh.mem p).logs) hash number (i + 1) ps).2.1 := rfl

/-- Unfolding of the receipt loop on a nonempty list: collected pointers. -/
theorem commitReceipts_cons_snd (rh : Heap Receipt) (lh : Heap Log)
    (hash number i p : Nat) (ps : List Nat) :
    (commitReceipts rh lh hash number i (p :: ps)).2.2 =
      rh.next ::
        (commitReceipts ((rh.set p (stampReceipt hash number i (rh.mem p))).alloc
            (stampReceipt hash number i (rh.mem p))).1
          (stampLogs lh hash (rh.mem p).logs) hash number (i + 1) ps).2.2 := rfl

/-- The in-place stamp followed by the copy allocation advances the allocator
by one. -/
theorem stepHeap_next (heap : Heap Receipt) (p : Nat) (r : Receipt) :
    ((heap.set p r).alloc r).1.next = heap.next + 1 := rfl

/-- The freshly allocated copy holds the stamped value. -/
theorem stepHeap_mem_new (heap : Heap Receipt) (p : Nat) (r : Receipt) :
    ((heap.set p r).alloc r).1.mem heap.next = r := by
  simp [Heap.alloc, Heap.set]

/-- Addresses other than the stamped receipt and the fresh copy are
untouched. -/
theorem stepHeap_mem_old (heap : Heap Receipt) (p : Nat) (r : Receipt) {x : Nat}
    (hx1 : x ≠ heap.next) (hx2 : x ≠ p) :
    ((heap.set p r).alloc r).1.mem x = heap.mem x := by
  simp [Heap.alloc, Heap.set, hx1, hx2]

/-- The receipt loop allocates exactly one copy per receipt pointer. -/
theorem commitReceipts_next (hash number : Nat) (ps : List Nat) :
    ∀ (rh : Heap Receipt) (lh : Heap Log) (i : Nat),
      (commitReceipts rh lh hash number i ps).1.next = rh.next + ps.length := by
  induction ps with
  | nil => intro rh lh i; rfl
  | cons p ps ih =>
    intro rh lh i
    rw [commitReceipts_cons_fst, ih, stepHeap_next, List.length_cons]
    omega

/-- The pointers handed to the chain-store write are exactly the freshly
allocated addresses, in allocation order. -/
theorem commitReceipts_written (hash number : Nat) (ps : List Nat) :
    ∀ (rh : Heap Receipt) (lh : Heap Log) (i : Nat),
      (commitReceipts rh lh hash number i ps).2.2 =
        List.range' rh.next ps.length := by
  induction ps with
  | nil => intro rh lh i; rfl
  | cons p ps ih =>
    intro rh lh i
    rw [commitReceipts_cons_snd, ih, stepHeap_next, List.length_cons, List.range'_succ]

/-- The receipt loop does not touch allocated receipt addresses outside the
processed pointers. -/
theorem commitReceipts_frame (hash number : Nat) (ps : List Nat) :
    ∀ (rh : Heap Receipt) (lh : Heap Log) (i q : Nat), q ∉ ps → q < rh.next →
      (commitReceipts rh lh hash number i ps).1.mem q = rh.mem q := by
  induction ps with
  | nil => intro rh lh i q _ _; rfl
  | cons p ps ih =>
    intro rh lh i q hq hlt
    rw [List.mem_cons] at hq
    push_neg at hq
    rw [commitReceipts_cons_fst]
    rw [ih _ _ (i + 1) q hq.2 (by rw [stepHeap_next]; omega)]
    exact stepHeap_mem_old rh p _ (Nat.ne_of_lt hlt) hq.1

/-- The value at the `k`-th fresh address after the receipt loop is the
`k`-th original receipt stamped at transaction index `i + k`.  Because
`stampReceipt` leaves `logs` alone, that value's log pointers are exactly the
original receipt's: the copy shares its log objects with the task's
receipt. -/
theorem commitReceipts_mem_written (hash number : Nat) (ps : List Nat) :
    ∀ (rh : Heap Receipt) (lh : Heap Log) (i : Nat),
      (∀ x ∈ ps, x < rh.next) → ps.Nodup →
      ∀ (k : Nat) (hk : k < ps.length),
        (commitReceipts rh lh hash number i ps).1.mem (rh.next + k) =
          stampReceipt hash number (i + k) (rh.mem (ps.get ⟨k, hk⟩)) := by
  induction ps with
  | nil => intro rh lh i _ _ k hk; exact absurd hk (Nat.not_lt_zero k)
  | cons p ps ih =>
    intro rh lh i hbound hnd k hk
    have hbound2 : ∀ x ∈ ps, x < rh.next := fun x hx =>
      hbound x (List.mem_cons_of_mem p hx)
    rw [commitReceipts_cons_fst]
    match k with
    | 0 =>
      have h0 : rh.next + 0 = rh.next := rfl
      rw [h0, commitReceipts_frame hash number ps
        ((rh.set p (stampReceipt hash number i (rh.mem p))).alloc
          (stampReceipt hash number i (rh.mem p))).1
        (stampLogs lh hash (rh.mem p).logs) (i + 1) rh.next
        (fun hmem => absurd (hbound2 _ hmem) (Nat.lt_irrefl _))
        (by rw [stepHeap_next]; omega)]
      rw [stepHeap_mem_new]
      rfl
    | k + 1 =>
      have hk2 : k < ps.length := Nat.lt_of_succ_lt_succ hk
      have hidx : rh.next + (k + 1) = rh.next + 1 + k := by omega
      rw [hidx]
      rw [show rh.next + 1 =
        ((rh.set p (stampReceipt hash number i (rh.mem p))).alloc
          (stampReceipt hash number i (rh.mem p))).1.next from rfl]
      rw [ih ((rh.set p (stampReceipt hash number i (rh.mem p))).alloc
          (stampReceipt hash number i (rh.mem p))).1
        (stampLogs lh hash (rh.mem p).logs) (i + 1)
        (fun x hx => by rw [stepHeap_next]; exact Nat.lt_succ_of_lt (hbound2 x hx))
        hnd.of_cons k hk2]
      have hget : ps.get ⟨k, hk2⟩ ∈ ps := ps.get_mem k hk2
      rw [stepHeap_mem_old rh p _ (Nat.ne_of_lt (hbound2 _ hget))
        (fun hcon => (List.nodup_cons.mp hnd).1 (hcon ▸ hget))]
      have harith : i + 1 + k = i + (k + 1) := by omega
      rw [harith]
      rfl

/-- The receipt loop preserves every processed receipt's log pointer list:
in-place stamping touches only the block location fields. -/
theorem commitReceipts_logs_inplace (hash number : Nat) (ps : List Nat) :
    ∀ (rh : Heap Receipt) (lh : Heap Log) (i : Nat),
      (∀ x ∈ ps, x < rh.next) → ps.Nodup →
      ∀ x ∈ ps,
        ((commitReceipts rh lh hash number i ps).1.mem x).logs = (rh.mem x).logs := by
  induction ps with
  | nil => intro rh lh i _ _ x hx; exact absurd hx (List.not_mem_nil x)
  | cons p ps ih =>
    intro rh lh i hbound hnd x hx
    have hplt : p < rh.next := hbound p (List.mem_cons_self p ps)
    have hbound2 : ∀ y ∈ ps, y < rh.next := fun y hy =>
      hbound y (List.mem_cons_of_mem p hy)
    rw [commitReceipts_cons_fst]
    rcases List.mem_cons.mp hx with rfl | hxps
    · rw [commitReceipts_frame hash number ps
        ((rh.set x (stampReceipt hash number i (rh.mem x))).alloc
          (stampReceipt hash number i (rh.mem x))).1
        (stampLogs lh hash (rh.mem x).logs) (i + 1) x
        (List.nodup_cons.mp hnd).1 (by rw [stepHeap_next]; omega)]
      have hself : ((rh.set x (stampReceipt hash number i (rh.mem x))).alloc
          (stampReceipt hash number i (rh.mem x))).1.mem x =
          stampReceipt hash number i (rh.mem x) := by
        simp [Heap.alloc, Heap.set, Nat.ne_of_lt hplt]
      rw [hself]
      rfl
    · rw [ih ((rh.set p (stampReceipt hash number i (rh.mem p))).alloc
          (stampReceipt hash number i (rh.mem p))).1
        (stampLogs lh hash (rh.mem p).logs) (i + 1)
        (fun y hy => by rw [stepHeap_next]; exact Nat.lt_succ_of_lt (hbound2 y hy))
        hnd.of_cons x hxps]
      rw [stepHeap_mem_old rh p _ (Nat.ne_of_lt (hbound2 x hxps))
        (fun hcon => (List.nodup_cons.mp hnd).1 (hcon ▸ hxps))]

/-- Log stamping is idempotent: a second stamp with the same block hash
changes nothing (a transaction hash rewritten to the hash is no longer
zero). -/
theorem stampLog_idem (hash : Nat) (l : Log) :
    stampLog hash (stampLog hash l) = stampLog hash l := by
  simp only [stampLog]
  split_ifs <;> simp_all

/-- `stampLogs` leaves log objects outside the pointer list untouched. -/
theorem stampLogs_mem_notin (hash : Nat) (ls : List Nat) :
    ∀ (lh : Heap Log) (l : Nat), l ∉ ls → (stampLogs lh hash ls).mem l = lh.mem l := by
  induction ls with
  | nil => intro lh l _; rfl
  | cons x ls ih =>
    intro lh l hl
    rw [List.mem_cons] at hl
    push_neg at hl
    rw [show stampLogs lh hash (x :: ls) =
      stampLogs (lh.set x (stampLog hash (lh.mem x))) hash ls from rfl]
    rw [ih _ l hl.2]
    exact Heap.set_mem_ne lh _ hl.1

/-- Every log object pointed to from the list ends up stamped (stamping twice
through duplicate pointers collapses by idempotence). -/
theorem stampLogs_mem_in (hash : Nat) (ls : List Nat) :
    ∀ (lh : Heap Log) (l : Nat), l ∈ ls →
      (stampLogs lh hash ls).mem l = stampLog hash (lh.mem l) := by
  induction ls with
  | nil => intro lh l hl; exact absurd hl (List.not_mem_nil l)
  | cons x ls ih =>
    intro lh l hl
    rw [show stampLogs lh hash (x :: ls) =
      stampLogs (lh.set x (stampLog hash (lh.mem x))) hash ls from rfl]
    by_cases hmem : l ∈ ls
    · rw [ih _ l hmem]
      by_cases hlx : l = x
      · subst hlx
        rw [Heap.set_mem_self, stampLog_idem]
      · rw [Heap.set_mem_ne lh _ hlx]
    · have hlx : l = x := by
        rcases List.mem_cons.mp hl with h | h
        · exact h
        · exact absurd h hmem
      subst hlx
      rw [stampLogs_mem_notin hash ls _ l hmem]
      exact Heap.set_mem_self lh l _

/-- The final log heap after the receipt loop: a log object pointed to from
some processed receipt holds its original value stamped with the block hash;
one pointed to from no processed receipt is untouched. -/
theorem commitReceipts_logHeap (hash number : Nat) (ps : List Nat) :
    ∀ (rh : Heap Receipt) (lh : Heap Log) (i : Nat),
      (∀ x ∈ ps, x < rh.next) → ps.Nodup → ∀ l : Nat,
      ((∃ p ∈ ps, l ∈ (rh.mem p).logs) →
        (commitReceipts rh lh hash number i ps).2.1.mem l =
          stampLog hash (lh.mem l)) ∧
      ((∀ p ∈ ps, l ∉ (rh.mem p).logs) →
        (commitReceipts rh lh hash number i ps).2.1.mem l = lh.mem l) := by
  induction ps with
  | nil =>
    intro rh lh i _ _ l
    exact ⟨fun h => absurd h (by simp), fun _ => rfl⟩
  | cons p ps ih =>
    intro rh lh i hbound hnd l
    have hplt : p < rh.next := hbound p (List.mem_cons_self p ps)
    have hbound2 : ∀ y ∈ ps, y < rh.next := fun y hy =>
      hbound y (List.mem_cons_of_mem p hy)
    have hAmem : ∀ y ∈ ps,
        ((rh.set p (stampReceipt hash number i (rh.mem p))).alloc
          (stampReceipt hash number i (rh.mem p))).1.mem y = rh.mem y := fun y hy =>
      stepHeap_mem_old rh p _ (Nat.ne_of_lt (hbound2 y hy))
        (fun hcon => (List.nodup_cons.mp hnd).1 (hcon ▸ hy))
    have hAbound : ∀ y ∈ ps,
        y < ((rh.set p (stampReceipt hash number i (rh.mem p))).alloc
          (stampReceipt hash number i (rh.mem p))).1.next := fun y hy => by
      rw [stepHeap_next]; exact Nat.lt_succ_of_lt (hbound2 y hy)
    have ihA := ih ((rh.set p (stampReceipt hash number i (rh.mem p))).alloc
          (stampReceipt hash number i (rh.mem p))).1
        (stampLogs lh hash (rh.mem p).logs) (i + 1) hAbound hnd.of_cons l
    constructor
    · intro hex
      rw [commitReceipts_cons_log]
      by_cases hinp : l ∈ (rh.mem p).logs
      · by_cases hinps : ∃ y ∈ ps, l ∈ (rh.mem y).logs
        · obtain ⟨y, hy, hly⟩ := hinps
          rw [ihA.1 ⟨y, hy, by rw [hAmem y hy]; exact hly⟩]
          rw [stampLogs_mem_in hash _ lh l hinp, stampLog_idem]
        · push_neg at hinps
          rw [ihA.2 (fun y hy => by rw [hAmem y hy]; exact hinps y hy)]
          exact stampLogs_mem_in hash _ lh l hinp
      · obtain ⟨y, hy, hly⟩ := hex
        rcases List.mem_cons.mp hy with rfl | hyps
        · exact absurd hly hinp
        · rw [ihA.1 ⟨y, hyps, by rw [hAmem y hyps]; exact hly⟩]
          rw [stampLogs_mem_notin hash _ lh l hinp]
    · intro hall
      rw [commitReceipts_cons_log]
      have hnotp : l ∉ (rh.mem p).logs := hall p (List.mem_cons_self p ps)
      rw [ihA.2 (fun y hy => by
        rw [hAmem y hy]; exact hall y (List.mem_cons_of_mem p hy))]
      exact stampLogs_mem_notin hash _ lh l hnotp

/-! ## C1: receipt stamping, shallow copies and shared log objects -/

/-- When a fresh sealed block resolves to a pending task, the first effect is
the chain write carrying the copies made by the receipt loop, the state's
receipt and log heaps are the loop's final heaps, and the pending-task store
is unchanged. -/
theorem resultStep_resolved (writeOk : Bool) (now : Int) (s : CommitterState) (b : Block)
    (task : Task)
    (hnew : s.chain.hasBlock b.hash b.number = false)
    (hfound : s.pendingTasks.lookup b.sealHash = some task) :
    (resultStep writeOk now s (some b)).2.head? =
      some (REffect.writeAttempt b.hash b.number
        (commitReceipts s.heap s.logHeap b.hash b.number 0 task.receipts).2.2) ∧
    (resultStep writeOk now s (some b)).1.heap =
      (commitReceipts s.heap s.logHeap b.hash b.number 0 task.receipts).1 ∧
    (resultStep writeOk now s (some b)).1.logHeap =
      (commitReceipts s.heap s.logHeap b.hash b.number 0 task.receipts).2.1 ∧
    (resultStep writeOk now s (some b)).1.pendingTasks = s.pendingTasks := by
  cases writeOk <;> simp [resultStep, hnew, hfound]

/-- C1 counterexample, refuting the claim's "deep copy, so two results
sharing the same seal-identity never share mutable receipt objects" clause.
Committing the sample block (hash 9) writes the copy at receipt address 2,
whose log pointer list is the very list `[0, 1]` of the task's receipt at
address 0 — the copy is shallow, not deep.  Resolving a second sealed block
with the same seal identity but final hash 10 against the same task writes a
copy at address 4 with the same log pointers, and its log stamping rewrites
log object 0 — reachable from the first result's written receipt — from
block hash 9 to block hash 10. -/
theorem resultStep_shallow_copy_counterexample :
    ((resultStep true 0 exampleCommitter (some exampleBlock)).1.heap.mem 2).logs =
      (exampleCommitter.heap.mem 0).logs ∧
    ((resultStep true 0 (resultStep true 0 exampleCommitter (some exampleBlock)).1
        (some ⟨10, 1, 2, 5⟩)).1.heap.mem 4).logs =
      ((resultStep true 0 (resultStep true 0 exampleCommitter (some exampleBlock)).1
        (some ⟨10, 1, 2, 5⟩)).1.heap.mem 2).logs ∧
    ((resultStep true 0 exampleCommitter (some exampleBlock)).1.logHeap.mem 0).blockHash
      = 9 ∧
    ((resultStep true 0 (resultStep true 0 exampleCommitter (some exampleBlock)).1
        (some ⟨10, 1, 2, 5⟩)).1.logHeap.mem 0).blockHash = 10 := by
  decide

/-- C1 (amended): for a sealed block resolved against a pending task, the
committer processes the task's receipts in transaction order; the write is
handed one pointer per receipt, all pairwise distinct and freshly allocated
(the receipt objects themselves never alias any previously allocated receipt,
in particular none of the task's, nor those handed to the write for another
result with the same seal identity); the `k`-th written object is the `k`-th
task receipt stamped with the final block hash, block number and transaction
index `k` — but it is a shallow copy whose log pointer list is exactly the
task receipt's, so it shares its mutable log objects with the task's receipt
and with every other result's copies; every log object reachable from the
task's receipts is stamped in place with the result's block hash, a zero
transaction hash rewritten to the block hash and any other transaction hash
retained; consequently a second result with the same seal identity leaves the
first result's written receipt objects untouched but restamps the log objects
they point to with its own block hash. -/
theorem resultStep_receipt_stamping (writeOk : Bool) (now : Int) (s : CommitterState)
    (b : Block) (task : Task)
    (hnew : s.chain.hasBlock b.hash b.number = false)
    (hfound : s.pendingTasks.lookup b.sealHash = some task)
    (hbound : ∀ x ∈ task.receipts, x < s.heap.next)
    (hnd : task.receipts.Nodup) :
    (resultStep writeOk now s (some b)).2.head? =
      some (REffect.writeAttempt b.hash b.number
        (commitReceipts s.heap s.logHeap b.hash b.number 0 task.receipts).2.2) ∧
    (resultStep writeOk now s (some b)).1.heap =
      (commitReceipts s.heap s.logHeap b.hash b.number 0 task.receipts).1 ∧
    (commitReceipts s.heap s.logHeap b.hash b.number 0 task.receipts).2.2.length =
      task.receipts.length ∧
    (commitReceipts s.heap s.logHeap b.hash b.number 0 task.receipts).2.2.Nodup ∧
    (∀ q ∈ (commitReceipts s.heap s.logHeap b.hash b.number 0 task.receipts).2.2,
      s.heap.next ≤ q) ∧
    (∀ (k : Nat) (hk : k < task.receipts.length),
      ∃ q, (commitReceipts s.heap s.logHeap b.hash b.number 0 task.receipts).2.2.get? k =
          some q ∧
        (commitReceipts s.heap s.logHeap b.hash b.number 0 task.receipts).1.mem q =
          stampReceipt b.hash b.number k (s.heap.mem (task.receipts.get ⟨k, hk⟩)) ∧
        ((commitReceipts s.heap s.logHeap b.hash b.number 0 task.receipts).1.mem q).logs =
          (s.heap.mem (task.receipts.get ⟨k, hk⟩)).logs) ∧
    (∀ l : Nat, (∃ p ∈ task.receipts, l ∈ (s.heap.mem p).logs) →
      (commitReceipts s.heap s.logHeap b.hash b.number 0 task.receipts).2.1.mem l =
        stampLog b.hash (s.logHeap.mem l)) ∧
    (∀ l : Log, (stampLog b.hash l).blockHash = b.hash ∧
      (l.txHash = 0 → (stampLog b.hash l).txHash = b.hash) ∧
      (l.txHash ≠ 0 → (stampLog b.hash l).txHash = l.txHash)) ∧
    (∀ (writeOk2 : Bool) (now2 : Int) (b2 : Block),
      b2.sealHash = b.sealHash →
      (resultStep writeOk now s (some b)).1.chain.hasBlock b2.hash b2.number = false →
      (resultStep writeOk2 now2 (resultStep writeOk now s (some b)).1 (some b2)).2.head? =
        some (REffect.writeAttempt b2.hash b2.number
          (commitReceipts (resultStep writeOk now s (some b)).1.heap
            (resultStep writeOk now s (some b)).1.logHeap b2.hash b2.number 0
            task.receipts).2.2) ∧
      (∀ q1 ∈ (commitReceipts s.heap s.logHeap b.hash b.number 0 task.receipts).2.2,
       ∀ q2 ∈ (commitReceipts (resultStep writeOk now s (some b)).1.heap
          (resultStep writeOk now s (some b)).1.logHeap b2.hash b2.number 0
          task.receipts).2.2, q1 ≠ q2) ∧
      (∀ q ∈ (commitReceipts s.heap s.logHeap b.hash b.number 0 task.receipts).2.2,
        (resultStep writeOk2 now2 (resultStep writeOk now s (some b)).1
            (some b2)).1.heap.mem q =
          (commitReceipts s.heap s.logHeap b.hash b.number 0 task.receipts).1.mem q) ∧
      (∀ l : Nat, (∃ p ∈ task.receipts, l ∈ (s.heap.mem p).logs) →
        (resultStep writeOk2 now2 (resultStep writeOk now s (some b)).1
            (some b2)).1.logHeap.mem l =
          stampLog b2.hash ((resultStep writeOk now s (some b)).1.logHeap.mem l))) := by
  obtain ⟨hhead, hheap, hlogh, hpend⟩ := resultStep_resolved writeOk now s b task hnew hfound
  have hwr := commitReceipts_written b.hash b.number task.receipts s.heap s.logHeap 0
  refine ⟨hhead, hheap, ?_, ?_, ?_, ?_, ?_, ?_, ?_⟩
  · rw [hwr, List.length_range']
  · rw [hwr]; exact List.nodup_range' _ _
  · intro q hq
    rw [hwr, List.mem_range'_1] at hq
    omega
  · intro k hk
    have hmw := commitReceipts_mem_written b.hash b.number task.receipts s.heap s.logHeap 0
      hbound hnd k hk
    rw [Nat.zero_add] at hmw
    refine ⟨s.heap.next + k, ?_, hmw, ?_⟩
    · rw [hwr]
      have := List.getElem?_range' s.heap.next 1 (m := k) (n := task.receipts.length) hk
      rw [List.get?_eq_getElem?]
      simpa using this
    · rw [hmw]
      rfl
  · intro l hex
    exact (commitReceipts_logHeap b.hash b.number task.receipts s.heap s.logHeap 0
      hbound hnd l).1 hex
  · intro l
    refine ⟨rfl, fun h => ?_, fun h => ?_⟩ <;> simp [stampLog, h]
  · intro writeOk2 now2 b2 hsame hnew2
    have hfound2 : (resultStep writeOk now s (some b)).1.pendingTasks.lookup b2.sealHash =
        some task := by
      rw [hpend, hsame]; exact hfound
    obtain ⟨hhead2, hheap2, hlogh2, hpend2⟩ :=
      resultStep_resolved writeOk2 now2 _ b2 task hnew2 hfound2
    have hnext1 : (resultStep writeOk now s (some b)).1.heap.next =
        s.heap.next + task.receipts.length := by
      rw [hheap, commitReceipts_next]
    refine ⟨hhead2, ?_, ?_, ?_⟩
    · intro q1 hq1 q2 hq2
      rw [hwr, List.mem_range'_1] at hq1
      rw [commitReceipts_written, List.mem_range'_1, hnext1] at hq2
      omega
    · intro q hq
      rw [hwr, List.mem_range'_1] at hq
      have hnot : q ∉ task.receipts :=
        fun hmem => absurd (hbound q hmem) (not_lt.mpr hq.1)
      have hlt : q < (resultStep writeOk now s (some b)).1.heap.next := by
        rw [hnext1]; exact hq.2
      rw [hheap2]
      rw [commitReceipts_frame b2.hash b2.number task.receipts
        (resultStep writeOk now s (some b)).1.heap
        (resultStep writeOk now s (some b)).1.logHeap 0 q hnot hlt]
      rw [hheap]
    · intro l hex
      obtain ⟨p, hp, hl⟩ := hex
      have hinplace : ((resultStep writeOk now s (some b)).1.heap.mem p).logs =
          (s.heap.mem p).logs := by
        rw [hheap]
        exact commitReceipts_logs_inplace b.hash b.number task.receipts s.heap s.logHeap 0
          hbound hnd p hp
      have hbound2 : ∀ x ∈ task.receipts,
          x < (resultStep writeOk now s (some b)).1.heap.next := fun x hx => by
        rw [hnext1]
        exact Nat.lt_of_lt_of_le (hbound x hx) (Nat.le_add_right _ _)
      rw [hlogh2]
      exact (commitReceipts_logHeap b2.hash b2.number task.receipts
        (resultStep writeOk now s (some b)).1.heap
        (resultStep writeOk now s (some b)).1.logHeap 0 hbound2 hnd l).1
        ⟨p, hp, by rw [hinplace]; exact hl⟩

/-- Concrete instance of the amended C1: committing the sample block hands
the write the freshly allocated copies, all at new addresses, and every log
object reachable from the task's receipts is stamped with block hash 9. -/
theorem resultStep_receipt_stamping_witness :
    (resultStep true 0 exampleCommitter (some exampleBlock)).2.head? =
      some (REffect.writeAttempt 9 1
        (commitReceipts exampleCommitter.heap exampleCommitter.logHeap 9 1 0
          exampleTask.receipts).2.2) ∧
    (∀ q ∈ (commitReceipts exampleCommitter.heap exampleCommitter.logHeap 9 1 0
        exampleTask.receipts).2.2, exampleCommitter.heap.next ≤ q) ∧
    (∀ l : Nat, (∃ p ∈ exampleTask.receipts, l ∈ (exampleCommitter.heap.mem p).logs) →
      (commitReceipts exampleCommitter.heap exampleCommitter.logHeap 9 1 0
        exampleTask.receipts).2.1.mem l = stampLog 9 (exampleCommitter.logHeap.mem l)) :=
  ⟨(resultStep_receipt_stamping true 0 exampleCommitter exampleBlock exampleTask
      (by decide) (by decide) (by decide) (by decide)).1,
   (resultStep_receipt_stamping true 0 exampleCommitter exampleBlock exampleTask
      (by decide) (by decide) (by decide) (by decide)).2.2.2.2.1,
   (resultStep_receipt_stamping true 0 exampleCommitter exampleBlock exampleTask
      (by decide) (by decide) (by decide) (by decide)).2.2.2.2.2.2.1⟩

end Miner
